import Mathlib

/-!
# Verification of the AI-Search-Engine core

Shallow embedding of the core algorithms of the `AI-Search-Engine` Django
project, together with proofs of the behavioural properties stated in its
specification.  Audio samples and embedding coordinates (numpy floats in the
source) are modelled as rationals; URLs are modelled as parsed
scheme/netloc/path triples (the form `urllib.parse.urlparse` exposes to the
crawler's filter).  Loops are embedded as structurally recursive functions;
where a source loop can diverge (a zero chunk length, an ever-growing crawl
frontier) the Lean function takes an explicit iteration bound and the
theorems hold for every value of the bound.
-/

namespace SearchEngine

/-! ## Audio chunker — `search/utils.py`, `chunk_audio`

`chunk_audio` loads the file with `librosa.load` (external I/O, not
modelled) and then windows the decoded waveform.  The windowing loop is
embedded below over an explicit waveform. -/

/-- The slice `waveform[start_sample:end_sample]` with `end_sample =
start_sample + L` (python list/ndarray slicing truncates at the end of the
sequence). -/
def sliceChunk (waveform : List ℚ) (L start_sample : Nat) : List ℚ :=
  (waveform.drop start_sample).take L

/-- The body `if len(chunk) < chunk_length_samples: chunk = np.concatenate(
[chunk, np.zeros(chunk_length_samples - len(chunk))])` of `chunk_audio`. -/
def padChunk (L : Nat) (chunk : List ℚ) : List ℚ :=
  if chunk.length < L then chunk ++ List.replicate (L - chunk.length) 0 else chunk

/-- The `while start_sample < len(waveform)` loop of `chunk_audio`.  Each
iteration yields `(chunk, start_sample // sr, start_sample // sr +
chunk_duration_s)` and advances `start_sample` by `L = chunk_duration_s * sr`.
The loop of the source diverges when `L = 0`; here an explicit iteration
bound `fuel` is taken, and `chunk_audio` below supplies a bound that is
sufficient whenever `L > 0`. -/
def chunkAudioGo (waveform : List ℚ) (L chunk_duration_s sr : Nat) :
    Nat → Nat → List (List ℚ × Nat × Nat)
  | 0, _ => []
  | fuel + 1, start_sample =>
    if start_sample < waveform.length then
      (padChunk L (sliceChunk waveform L start_sample),
        start_sample / sr, start_sample / sr + chunk_duration_s) ::
        chunkAudioGo waveform L chunk_duration_s sr fuel (start_sample + L)
    else []

/-- `chunk_audio` (on the decoded waveform): the generator of
`search/utils.py`, materialised as the list of yielded
`(chunk, start_time_s, end_time_s)` triples. -/
def chunk_audio (waveform : List ℚ) (chunk_duration_s sr : Nat) :
    List (List ℚ × Nat × Nat) :=
  chunkAudioGo waveform (chunk_duration_s * sr) chunk_duration_s sr
    waveform.length 0

/-- `num_chunks = int(np.ceil(len(waveform) / chunk_length_samples))` as
computed by `_index_audio` (natural-number form of the ceiling). -/
def numChunks (n L : Nat) : Nat := (n + L - 1) / L

example : chunk_audio [1, 2, 3] 1 2 = [([1, 2], 0, 1), ([3, 0], 1, 2)] := by
  decide

example : chunk_audio [0, 0, 1] 1 2 = [([0, 0], 0, 1), ([1, 0], 1, 2)] := by
  decide

/-! ### Arithmetic facts about the chunk count -/

theorem numChunks_zero (L : Nat) : numChunks 0 L = 0 := by
  unfold numChunks
  rcases Nat.eq_zero_or_pos L with h | h
  · simp [h]
  · exact Nat.div_eq_of_lt (by omega)

theorem numChunks_eq_zero {n L : Nat} (hL : 0 < L) (h : numChunks n L = 0) :
    n = 0 := by
  unfold numChunks at h
  rcases Nat.eq_zero_or_pos n with hn | hn
  · exact hn
  · exfalso
    have hle : L ≤ n + L - 1 := by omega
    have hpos : 0 < (n + L - 1) / L := Nat.div_pos hle hL
    omega

theorem numChunks_succ {n L : Nat} (hL : 0 < L) (hn : 0 < n) :
    numChunks n L = numChunks (n - L) L + 1 := by
  unfold numChunks
  rcases Nat.lt_or_ge n L with h | h
  · have h1 : n - L = 0 := by omega
    rw [h1]
    have h2 : n + L - 1 = (n - 1) + L := by omega
    rw [h2, Nat.add_div_right _ hL, Nat.div_eq_of_lt (by omega),
      Nat.div_eq_of_lt (by omega)]
  · have h2 : n + L - 1 = (n - L + L - 1) + L := by omega
    rw [h2, Nat.add_div_right _ hL]


/-- The chunk count computed by the source (`(n + L - 1) / L` over ℕ) is the
ceiling of `n / L`. -/
theorem numChunks_eq_ceil (n L : Nat) (hL : 0 < L) :
    numChunks n L = ⌈(n : ℚ) / (L : ℚ)⌉₊ := by
  have hLQ : (0 : ℚ) < (L : ℚ) := by exact_mod_cast hL
  unfold numChunks
  apply le_antisymm
  · set m := ⌈(n : ℚ) / (L : ℚ)⌉₊ with hm
    have h1 : (n : ℚ) / (L : ℚ) ≤ (m : ℚ) := Nat.le_ceil _
    rw [div_le_iff₀ hLQ] at h1
    have h2 : n ≤ m * L := by exact_mod_cast h1
    calc (n + L - 1) / L ≤ (m * L + (L - 1)) / L := by
          apply Nat.div_le_div_right; omega
      _ = (L * m + (L - 1)) / L := by rw [Nat.mul_comm]
      _ = m + (L - 1) / L := Nat.mul_add_div hL m (L - 1)
      _ = m := by rw [Nat.div_eq_of_lt (by omega), Nat.add_zero]
  · rw [Nat.ceil_le]
    have hmod := Nat.div_add_mod (n + L - 1) L
    have hr : (n + L - 1) % L < L := Nat.mod_lt _ hL
    set q := (n + L - 1) / L with hq
    set r := (n + L - 1) % L with hr2
    have h2 : n ≤ L * q := by omega
    rw [div_le_iff₀ hLQ]
    calc (n : ℚ) ≤ ((L * q : Nat) : ℚ) := by exact_mod_cast h2
      _ = (q : ℚ) * (L : ℚ) := by push_cast; ring

/-- The chunk count never exceeds the sample count (so `waveform.length` is a
sufficient iteration bound for the loop whenever `L > 0`). -/
theorem numChunks_le (n L : Nat) (hL : 0 < L) : numChunks n L ≤ n := by
  unfold numChunks
  rcases Nat.eq_zero_or_pos n with hn | hn
  · subst hn
    rw [Nat.zero_add]
    rw [Nat.div_eq_of_lt (by omega)]
  · have h2 : n ≤ n * L := Nat.le_mul_of_pos_right n hL
    calc (n + L - 1) / L ≤ (n * L + (L - 1)) / L := by
          apply Nat.div_le_div_right; omega
      _ = (L * n + (L - 1)) / L := by rw [Nat.mul_comm]
      _ = n + (L - 1) / L := Nat.mul_add_div hL n (L - 1)
      _ = n := by rw [Nat.div_eq_of_lt (by omega), Nat.add_zero]

/-! ### Characterisation of the chunking loop -/

/-- The triple yielded by the `i`-th loop iteration. -/
def chunkAt (waveform : List ℚ) (L chunk_duration_s sr i : Nat) :
    List ℚ × Nat × Nat :=
  (padChunk L (sliceChunk waveform L (i * L)),
    (i * L) / sr, (i * L) / sr + chunk_duration_s)

theorem chunkAudioGo_eq (w : List ℚ) (L d sr : Nat) (hL : 0 < L) :
    ∀ fuel k, numChunks (w.length - k * L) L ≤ fuel →
      chunkAudioGo w L d sr fuel (k * L) =
        (List.range (numChunks (w.length - k * L) L)).map
          (fun i => chunkAt w L d sr (k + i)) := by
  intro fuel
  induction fuel with
  | zero =>
    intro k hk
    have h0 : numChunks (w.length - k * L) L = 0 := Nat.le_zero.mp hk
    rw [h0]
    rfl
  | succ fuel ih =>
    intro k hk
    by_cases h : k * L < w.length
    · have hpos : 0 < w.length - k * L := by omega
      have hsucc := numChunks_succ hL hpos
      have hstep : w.length - k * L - L = w.length - (k + 1) * L := by
        rw [Nat.succ_mul]; omega
      rw [hstep] at hsucc
      have ihk := ih (k + 1) (by omega)
      show (if k * L < w.length then
          (padChunk L (sliceChunk w L (k * L)), (k * L) / sr,
            (k * L) / sr + d) ::
            chunkAudioGo w L d sr fuel (k * L + L)
        else []) = _
      rw [if_pos h]
      have harg : k * L + L = (k + 1) * L := by rw [Nat.succ_mul]
      rw [harg, ihk, hsucc, List.range_succ_eq_map]
      simp only [List.map_cons, List.map_map]
      congr 1
      apply List.map_congr_left
      intro i _
      simp only [Function.comp_apply]
      congr 1
      omega
    · have h0 : w.length - k * L = 0 := by omega
      rw [h0, numChunks_zero]
      show (if k * L < w.length then _ else ([] : List (List ℚ × Nat × Nat))) = _
      rw [if_neg h]
      rfl

theorem chunk_audio_eq (w : List ℚ) (d sr : Nat) (hL : 0 < d * sr) :
    chunk_audio w d sr =
      (List.range (numChunks w.length (d * sr))).map
        (fun i => chunkAt w (d * sr) d sr i) := by
  unfold chunk_audio
  have h := chunkAudioGo_eq w (d * sr) d sr hL w.length 0
    (by rw [Nat.zero_mul, Nat.sub_zero]; exact numChunks_le _ _ hL)
  rw [Nat.zero_mul] at h
  rw [Nat.sub_zero] at h
  rw [h]
  apply List.map_congr_left
  intro i _
  rw [Nat.zero_add]

theorem padChunk_length {L : Nat} {c : List ℚ} (h : c.length ≤ L) :
    (padChunk L c).length = L := by
  unfold padChunk
  split
  · simp
    omega
  · omega

theorem sliceChunk_length (w : List ℚ) (L s : Nat) :
    (sliceChunk w L s).length = min L (w.length - s) := by
  unfold sliceChunk
  simp

/-- Any position of a padded chunk that lies beyond the end of the original
waveform holds a zero sample. -/
theorem padChunk_getD_zero (w : List ℚ) (L s j : Nat)
    (hj : w.length ≤ s + j) :
    (padChunk L (sliceChunk w L s)).getD j 0 = 0 := by
  have hlen : (sliceChunk w L s).length ≤ L := by
    rw [sliceChunk_length]; omega
  have hslice : (sliceChunk w L s).length ≤ j := by
    rw [sliceChunk_length]; omega
  unfold padChunk
  split
  · rw [List.getD_eq_getElem?_getD, List.getElem?_append_right hslice,
      List.getElem?_replicate]
    split
    · rfl
    · rfl
  · rw [List.getD_eq_getElem?_getD]
    rw [List.getElem?_eq_none (by omega)]
    rfl

/-- **C2**: for every non-empty waveform of `n` samples at rate `sr` and chunk
duration `d` with `L = d * sr`, `chunk_audio` yields exactly `ceil (n / L)`
triples; the `i`-th triple (0-based) has `start_seconds = i * d`,
`end_seconds = (i + 1) * d`, and a chunk of exactly `L` samples whose tail
beyond the original waveform is all zeros. -/
theorem claim_C2_chunk_audio (w : List ℚ) (d sr : Nat)
    (hd : 0 < d) (hsr : 0 < sr) (hw : 0 < w.length) :
    (chunk_audio w d sr).length = ⌈(w.length : ℚ) / ((d * sr : Nat) : ℚ)⌉₊ ∧
    ∀ i, i < (chunk_audio w d sr).length →
      ((chunk_audio w d sr).getD i ([], 0, 0)).2.1 = i * d ∧
      ((chunk_audio w d sr).getD i ([], 0, 0)).2.2 = (i + 1) * d ∧
      ((chunk_audio w d sr).getD i ([], 0, 0)).1.length = d * sr ∧
      ∀ j, w.length ≤ i * (d * sr) + j →
        ((chunk_audio w d sr).getD i ([], 0, 0)).1.getD j 0 = 0 := by
  have hL : 0 < d * sr := Nat.mul_pos hd hsr
  have hch := chunk_audio_eq w d sr hL
  have hlen : (chunk_audio w d sr).length = numChunks w.length (d * sr) := by
    rw [hch]; simp
  refine ⟨by rw [hlen]; exact numChunks_eq_ceil _ _ hL, ?_⟩
  intro i hi
  rw [hlen] at hi
  have hnth : (chunk_audio w d sr).getD i ([], 0, 0) =
      chunkAt w (d * sr) d sr i := by
    rw [hch, List.getD_eq_getElem?_getD, List.getElem?_map]
    rw [List.getElem?_eq_getElem (by simpa using hi)]
    simp
  rw [hnth]
  unfold chunkAt
  have hstart : i * (d * sr) / sr = i * d := by
    rw [← Nat.mul_assoc]
    exact Nat.mul_div_cancel (i * d) hsr
  refine ⟨hstart, ?_, ?_, ?_⟩
  · show i * (d * sr) / sr + d = (i + 1) * d
    rw [hstart, Nat.succ_mul]
  · apply padChunk_length
    rw [sliceChunk_length]
    omega
  · intro j hj
    exact padChunk_getD_zero w (d * sr) (i * (d * sr)) j hj

theorem claim_C2_chunk_audio_witness :
    (chunk_audio [1, 2, 3] 1 2).length = 2 ∧
    ((chunk_audio [1, 2, 3] 1 2).getD 1 ([], 0, 0)).1.getD 1 0 = 0 := by
  have h := claim_C2_chunk_audio [1, 2, 3] 1 2 (by decide) (by decide) (by decide)
  constructor
  · rw [h.1]
    norm_num [Nat.ceil_eq_iff]
  · exact (h.2 1 (by decide)).2.2.2 1 (by decide)

/-! ## Data model — `search/models.py`, and the indexer — `run_indexer.py`

`ImageFeatures` rows are keyed by the unique constraint
`unique_image_asset_url` on `asset_url`; `AudioFeatures` rows by
`unique_audio_chunk` on `(asset_url, begin_stamp_seconds)`.  A store is the
list of rows of one table. -/

structure ImageRecord where
  asset_url : String
  source_page_url : String
  alt_text : String
  embedding : List ℚ
deriving DecidableEq, Repr

structure AudioRecord where
  asset_url : String
  source_page_url : String
  begin_stamp_seconds : Nat
  end_stamp_seconds : Nat
  embedding : List ℚ
deriving DecidableEq, Repr

/-- `ImageFeatures.objects.update_or_create(asset_url=..., defaults={...})`:
look the row up by `asset_url`; if present overwrite the `defaults` fields of
the matching row (the unique constraint keeps at most one), else insert a new
row built from the key and the defaults. -/
def imageUpdateOrCreate (store : List ImageRecord) (asset_url : String)
    (source_page_url alt_text : String) (embedding : List ℚ) :
    List ImageRecord :=
  if store.any (fun r => r.asset_url == asset_url) then
    store.map (fun r =>
      if r.asset_url == asset_url then
        { r with source_page_url := source_page_url, alt_text := alt_text,
                 embedding := embedding }
      else r)
  else store ++ [⟨asset_url, source_page_url, alt_text, embedding⟩]

/-- `AudioFeatures.objects.update_or_create(asset_url=...,
begin_stamp_seconds=..., defaults={...})`, keyed by the pair. -/
def audioUpdateOrCreate (store : List AudioRecord) (asset_url : String)
    (begin_stamp : Nat) (source_page_url : String) (end_stamp : Nat)
    (embedding : List ℚ) : List AudioRecord :=
  if store.any (fun r =>
      r.asset_url == asset_url && r.begin_stamp_seconds == begin_stamp) then
    store.map (fun r =>
      if r.asset_url == asset_url && r.begin_stamp_seconds == begin_stamp then
        { r with source_page_url := source_page_url,
                 end_stamp_seconds := end_stamp, embedding := embedding }
      else r)
  else store ++ [⟨asset_url, source_page_url, begin_stamp, end_stamp, embedding⟩]

/-- The chunk loop of `_index_audio` (`run_indexer.py`).  `embed` models
`audio_extractor.extract_from_audios` on a single chunk (`.error` = a raised
exception).  The loop iterates `i` over `range(num_chunks)`, slices
`waveform[i*L : i*L+L]` (without padding), skips the chunk when
`not chunk_waveform.any()` (all samples zero), otherwise embeds it and
upserts one row keyed `(asset_url, i * chunk_duration_s)`.  Each upsert is an
individual ORM write with no enclosing transaction, so when an embedding
raises, the rows already written remain: the result pairs the store as
written so far with the raised error, if any. -/
def indexAudioLoop (embed : List ℚ → Except String (List ℚ))
    (asset_url source_url : String) (waveform : List ℚ) (L d : Nat) :
    List Nat → List AudioRecord → List AudioRecord × Option String
  | [], store => (store, none)
  | i :: rest, store =>
    let chunk_waveform := sliceChunk waveform L (i * L)
    if chunk_waveform.all (fun x => x == 0) then
      indexAudioLoop embed asset_url source_url waveform L d rest store
    else
      match embed chunk_waveform with
      | .error e => (store, some e)
      | .ok emb =>
        indexAudioLoop embed asset_url source_url waveform L d rest
          (audioUpdateOrCreate store asset_url (i * d) source_url (i * d + d)
            emb)

/-- `_index_audio` on the decoded waveform (`librosa.load` is external I/O):
`L = chunk_duration_s * sr`, `num_chunks = ceil(len(waveform) / L)`, then the
chunk loop. -/
def indexAudio (embed : List ℚ → Except String (List ℚ))
    (asset_url source_url : String) (waveform : List ℚ) (d sr : Nat)
    (store : List AudioRecord) : List AudioRecord × Option String :=
  let L := d * sr
  indexAudioLoop embed asset_url source_url waveform L d
    (List.range (numChunks waveform.length L)) store

/-- `_index_image`: decode (`Image.open` / `img.verify()`), embed, then a
single `update_or_create`.  Both possible failures occur before the write. -/
def indexImage (decode : Except String Unit) (embed : Except String (List ℚ))
    (asset_url source_url alt_text : String) (store : List ImageRecord) :
    List ImageRecord × Option String :=
  match decode with
  | .error e => (store, some e)
  | .ok _ =>
    match embed with
    | .error e => (store, some e)
    | .ok emb =>
      (imageUpdateOrCreate store asset_url source_url alt_text emb, none)

/-- An embedder that never raises (its vector is an opaque function of the
chunk). -/
def embedWith (f : List ℚ → List ℚ) : List ℚ → Except String (List ℚ) :=
  fun c => .ok (f c)

example :
    (indexAudio (embedWith id) "a" "s" [0, 0, 1] 1 2 []).1 =
      [⟨"a", "s", 1, 2, [1]⟩] := by decide

example :
    (indexAudio (embedWith id) "a" "s" [0, 0, 1] 1 2 []).2 = none := by decide

theorem chunk_audio_getD (w : List ℚ) (d sr : Nat) (hL : 0 < d * sr)
    (i : Nat) (hi : i < numChunks w.length (d * sr)) :
    (chunk_audio w d sr).getD i ([], 0, 0) = chunkAt w (d * sr) d sr i := by
  rw [chunk_audio_eq w d sr hL, List.getD_eq_getElem?_getD, List.getElem?_map]
  rw [List.getElem?_eq_getElem (by simpa using hi)]
  simp

/-- With an embedder that never raises, the chunk loop of `_index_audio`
appends, to a store holding none of the targeted keys, exactly one row per
index whose slice has a nonzero sample. -/
theorem indexAudioLoop_ok (f : List ℚ → List ℚ) (a s : String) (w : List ℚ)
    (L d : Nat) :
    ∀ (l : List Nat) (st : List AudioRecord),
      (∀ i ∈ l, ∀ r ∈ st,
        ¬(r.asset_url = a ∧ r.begin_stamp_seconds = i * d)) →
      l.Pairwise (fun i j => i * d ≠ j * d) →
      indexAudioLoop (embedWith f) a s w L d l st =
        (st ++ l.filterMap (fun i =>
          if (sliceChunk w L (i * L)).all (fun x => x == 0) then none
          else some ⟨a, s, i * d, i * d + d, f (sliceChunk w L (i * L))⟩),
         none) := by
  intro l
  induction l with
  | nil =>
    intro st _ _
    simp [indexAudioLoop]
  | cons i rest ih =>
    intro st hfresh hpw
    rw [List.pairwise_cons] at hpw
    show (if (sliceChunk w L (i * L)).all (fun x => x == 0) then
        indexAudioLoop (embedWith f) a s w L d rest st
      else
        match embedWith f (sliceChunk w L (i * L)) with
        | .error e => (st, some e)
        | .ok emb =>
          indexAudioLoop (embedWith f) a s w L d rest
            (audioUpdateOrCreate st a (i * d) s (i * d + d) emb)) = _
    by_cases hz : (sliceChunk w L (i * L)).all (fun x => x == 0)
    · rw [if_pos hz]
      rw [ih st (fun j hj => hfresh j (List.mem_cons_of_mem i hj)) hpw.2]
      rw [List.filterMap_cons]
      rw [if_pos hz]
    · rw [if_neg hz]
      show indexAudioLoop (embedWith f) a s w L d rest
          (audioUpdateOrCreate st a (i * d) s (i * d + d)
            (f (sliceChunk w L (i * L)))) = _
      have hany : (st.any (fun r =>
          r.asset_url == a && r.begin_stamp_seconds == i * d)) = false := by
        rw [List.any_eq_false]
        intro r hr
        have := hfresh i (List.mem_cons_self i rest) r hr
        simp only [Bool.and_eq_true, beq_iff_eq]
        tauto
      have hupsert : audioUpdateOrCreate st a (i * d) s (i * d + d)
          (f (sliceChunk w L (i * L))) =
          st ++ [⟨a, s, i * d, i * d + d, f (sliceChunk w L (i * L))⟩] := by
        unfold audioUpdateOrCreate
        rw [hany]
        simp
      rw [hupsert]
      have hfresh' : ∀ j ∈ rest,
          ∀ r ∈ st ++ [(⟨a, s, i * d, i * d + d,
            f (sliceChunk w L (i * L))⟩ : AudioRecord)],
          ¬(r.asset_url = a ∧ r.begin_stamp_seconds = j * d) := by
        intro j hj r hr
        rcases List.mem_append.mp hr with hr | hr
        · exact hfresh j (List.mem_cons_of_mem i hj) r hr
        · have heq : r = ⟨a, s, i * d, i * d + d,
              f (sliceChunk w L (i * L))⟩ := by simpa using hr
          subst heq
          intro hcon
          exact hpw.1 j hj (show i * d = j * d from hcon.2)
      rw [ih _ hfresh' hpw.2]
      rw [List.filterMap_cons, if_neg hz]
      simp

/-- **C1, counterexample**: at waveform `[0, 0, 1]` with `d = 1`, `sr = 2`
(`L = 2`), the Audio Chunker yields two chunks, but `_index_audio` (run with
an embedder that returns its input, so the stored "embedding" is exactly the
chunk handed to the embedder) writes a single record: the silent first chunk
produces no row at all, and the final chunk reaches the embedder with one
sample — truncated, not zero-padded to `L = 2`. -/
theorem claim_C1_counterexample :
    (chunk_audio [0, 0, 1] 1 2).length = 2 ∧
    (indexAudio (embedWith id) "a" "s" [0, 0, 1] 1 2 []).1 =
      [⟨"a", "s", 1, 2, [1]⟩] ∧
    (⟨"a", "s", 1, 2, [1]⟩ : AudioRecord).embedding.length ≠ 1 * 2 := by
  refine ⟨by decide, by decide, by decide⟩

/-- **C1, amended**: `_index_audio` iterates over exactly the chunk
boundaries of the Audio Chunker (same chunk count; the chunker's `i`-th chunk
is the loop's `i`-th slice zero-padded to `L`), but instead of consuming
`chunk_audio` it: passes each slice to the embedder *unpadded* (so the final
chunk may be shorter than `d * sr` samples), skips chunks whose samples are
all zero entirely, and upserts one record keyed
`(asset_url, i * d)` only for each chunk with a nonzero sample. -/
theorem claim_C1_amended_audio_indexing (f : List ℚ → List ℚ) (a s : String)
    (w : List ℚ) (d sr : Nat) (hd : 0 < d) (hsr : 0 < sr) :
    (chunk_audio w d sr).length = numChunks w.length (d * sr) ∧
    (∀ i, i < numChunks w.length (d * sr) →
      ((chunk_audio w d sr).getD i ([], 0, 0)).1 =
        padChunk (d * sr) (sliceChunk w (d * sr) (i * (d * sr)))) ∧
    indexAudio (embedWith f) a s w d sr [] =
      ((List.range (numChunks w.length (d * sr))).filterMap (fun i =>
        if (sliceChunk w (d * sr) (i * (d * sr))).all (fun x => x == 0) then
          none
        else
          some ⟨a, s, i * d, i * d + d,
            f (sliceChunk w (d * sr) (i * (d * sr)))⟩),
       none) := by
  have hL : 0 < d * sr := Nat.mul_pos hd hsr
  refine ⟨by rw [chunk_audio_eq w d sr hL]; simp, ?_, ?_⟩
  · intro i hi
    rw [chunk_audio_getD w d sr hL i hi]
    rfl
  · unfold indexAudio
    rw [indexAudioLoop_ok f a s w (d * sr) d
      (List.range (numChunks w.length (d * sr))) [] (by simp) ?pw]
    · simp
    case pw =>
      refine (List.pairwise_lt_range _).imp ?_
      intro i j hij heq
      exact absurd (Nat.eq_of_mul_eq_mul_right hd heq) (Nat.ne_of_lt hij)

theorem claim_C1_amended_audio_indexing_witness :
    indexAudio (embedWith id) "a" "s" [0, 0, 1] 1 2 [] =
      ([⟨"a", "s", 1, 2, [1]⟩], none) := by
  have h := (claim_C1_amended_audio_indexing id "a" "s" [0, 0, 1] 1 2
    (by decide) (by decide)).2.2
  rw [h]
  decide

/-! ## C6 — atomicity of a failed ingestion attempt -/

/-- An audio embedder that raises on the chunk `[2, 2]` and succeeds (echoing
its input) on every other chunk. -/
def embedFailOn22 : List ℚ → Except String (List ℚ) :=
  fun c => if c == [2, 2] then .error "embedding backend failure" else .ok c

/-- **C6, counterexample**: with waveform `[1, 0, 2, 2]`, `d = 1`, `sr = 2`
and an embedder that raises on the second chunk `[2, 2]`, the audio
ingestion attempt fails, yet the record upserted for the first chunk is left
in the store — a failing attempt is not free of partial writes. -/
theorem claim_C6_counterexample :
    (indexAudio embedFailOn22 "a" "s" [1, 0, 2, 2] 1 2 []).2 =
      some "embedding backend failure" ∧
    (indexAudio embedFailOn22 "a" "s" [1, 0, 2, 2] 1 2 []).1 =
      [⟨"a", "s", 0, 1, [1, 0]⟩] := by
  refine ⟨by decide, by decide⟩

/-- **C6, amended**: a failed image ingestion attempt (decode or embedding
error) leaves the image store unchanged — the only write of `_index_image`
happens after both can fail.  A failed audio attempt, however, keeps the
per-chunk upserts already performed: when the chunk loop raises, the final
store is exactly the store produced by the error-free processing of the
prefix of chunk indices before the failing chunk (whose slice is non-silent
and whose embedding raised). -/
theorem claim_C6_amended_failed_attempt :
    (∀ decode embed a s alt (store : List ImageRecord),
      (indexImage decode embed a s alt store).2.isSome →
      (indexImage decode embed a s alt store).1 = store) ∧
    (∀ embed a s (w : List ℚ) L d (l : List Nat)
        (st : List AudioRecord) (e : String),
      (indexAudioLoop embed a s w L d l st).2 = some e →
      ∃ pre i post, l = pre ++ i :: post ∧
        ¬(sliceChunk w L (i * L)).all (fun x => x == 0) ∧
        embed (sliceChunk w L (i * L)) = .error e ∧
        (indexAudioLoop embed a s w L d pre st).2 = none ∧
        (indexAudioLoop embed a s w L d l st).1 =
          (indexAudioLoop embed a s w L d pre st).1) := by
  constructor
  · intro decode embed a s alt store h
    unfold indexImage at h ⊢
    match decode with
    | .error e => rfl
    | .ok _ =>
      match embed with
      | .error e => rfl
      | .ok emb => simp at h
  · intro embed a s w L d l
    induction l with
    | nil =>
      intro st e h
      simp [indexAudioLoop] at h
    | cons i rest ih =>
      intro st e h
      rw [show indexAudioLoop embed a s w L d (i :: rest) st =
          (if (sliceChunk w L (i * L)).all (fun x => x == 0) then
            indexAudioLoop embed a s w L d rest st
          else
            match embed (sliceChunk w L (i * L)) with
            | .error e => (st, some e)
            | .ok emb =>
              indexAudioLoop embed a s w L d rest
                (audioUpdateOrCreate st a (i * d) s (i * d + d) emb))
          from rfl] at h ⊢
      by_cases hz : (sliceChunk w L (i * L)).all (fun x => x == 0)
      · rw [if_pos hz] at h ⊢
        obtain ⟨pre, j, post, hsplit, hnz, herr, hpre, hstore⟩ := ih st e h
        refine ⟨i :: pre, j, post, by rw [hsplit]; rfl, hnz, herr, ?_, ?_⟩
        · rw [show indexAudioLoop embed a s w L d (i :: pre) st =
            indexAudioLoop embed a s w L d pre st from by
              show (if (sliceChunk w L (i * L)).all (fun x => x == 0) then _
                else _) = _
              rw [if_pos hz]]
          exact hpre
        · rw [show indexAudioLoop embed a s w L d (i :: pre) st =
            indexAudioLoop embed a s w L d pre st from by
              show (if (sliceChunk w L (i * L)).all (fun x => x == 0) then _
                else _) = _
              rw [if_pos hz]]
          exact hstore
      · rw [if_neg hz] at h ⊢
        match hembed : embed (sliceChunk w L (i * L)) with
        | .error e' =>
          rw [hembed] at h
          have he : e' = e := by simpa using h
          subst he
          exact ⟨[], i, rest, rfl, hz, hembed, rfl, rfl⟩
        | .ok emb =>
          rw [hembed] at h
          have h' : (indexAudioLoop embed a s w L d rest
              (audioUpdateOrCreate st a (i * d) s (i * d + d) emb)).2 =
              some e := h
          obtain ⟨pre, j, post, hsplit, hnz, herr, hpre, hstore⟩ :=
            ih (audioUpdateOrCreate st a (i * d) s (i * d + d) emb) e h'
          have hcons : ∀ (st' : List AudioRecord),
              indexAudioLoop embed a s w L d (i :: pre) st' =
                indexAudioLoop embed a s w L d pre
                  (audioUpdateOrCreate st' a (i * d) s (i * d + d) emb) := by
            intro st'
            show (if (sliceChunk w L (i * L)).all (fun x => x == 0) then
                indexAudioLoop embed a s w L d pre st'
              else
                match embed (sliceChunk w L (i * L)) with
                | .error e2 => (st', some e2)
                | .ok emb2 =>
                  indexAudioLoop embed a s w L d pre
                    (audioUpdateOrCreate st' a (i * d) s (i * d + d) emb2)) =
              indexAudioLoop embed a s w L d pre
                (audioUpdateOrCreate st' a (i * d) s (i * d + d) emb)
            rw [if_neg hz, hembed]
          refine ⟨i :: pre, j, post, by rw [hsplit]; rfl, hnz, herr, ?_, ?_⟩
          · rw [hcons st]
            exact hpre
          · rw [hcons st]
            exact hstore

theorem claim_C6_amended_failed_attempt_witness :
    (indexImage (.error "decode") (.ok [1]) "a" "s" "alt" []).1 = [] ∧
    (∃ pre i post,
      List.range (numChunks ([1, 0, 2, 2] : List ℚ).length (1 * 2)) =
        pre ++ i :: post ∧
      ¬(sliceChunk [1, 0, 2, 2] (1 * 2) (i * (1 * 2))).all (fun x => x == 0) ∧
      embedFailOn22 (sliceChunk [1, 0, 2, 2] (1 * 2) (i * (1 * 2))) =
        .error "embedding backend failure" ∧
      (indexAudioLoop embedFailOn22 "a" "s" [1, 0, 2, 2] (1 * 2) 1 pre []).2 =
        none ∧
      (indexAudioLoop embedFailOn22 "a" "s" [1, 0, 2, 2] (1 * 2) 1
          (List.range (numChunks ([1, 0, 2, 2] : List ℚ).length (1 * 2)))
          []).1 =
        (indexAudioLoop embedFailOn22 "a" "s" [1, 0, 2, 2] (1 * 2) 1 pre
          []).1) := by
  constructor
  · exact claim_C6_amended_failed_attempt.1 (.error "decode") (.ok [1])
      "a" "s" "alt" [] (by decide)
  · exact claim_C6_amended_failed_attempt.2 embedFailOn22 "a" "s"
      [1, 0, 2, 2] (1 * 2) 1 (List.range (numChunks 4 (1 * 2))) []
      "embedding backend failure" (by decide)

/-! ## C7 — the dimension guard of the `save` methods (`search/models.py`)

The guards read the configured dimension from the Django settings
(`settings.TEXT_MODEL_CONFIG.get("DIMENSIONS", 384)` and the image/audio
counterparts; the literal is only the `.get` fallback).  An unsaved model
instance carries a nullable `embedding` attribute, so these rows hold an
`Option`; the indexer paths above always write a present vector. -/

structure ModelConfig where
  dimensions : Nat
deriving DecidableEq, Repr

structure Settings where
  TEXT_MODEL_CONFIG : ModelConfig
  IMAGE_MODEL_CONFIG : ModelConfig
  AUDIO_MODEL_CONFIG : ModelConfig
deriving DecidableEq, Repr

structure TextFeaturesRow where
  source_page_url : String
  content : String
  embedding : Option (List ℚ)
deriving DecidableEq, Repr

structure ImageFeaturesRow where
  asset_url : String
  source_page_url : String
  alt_text : String
  embedding : Option (List ℚ)
deriving DecidableEq, Repr

structure AudioFeaturesRow where
  asset_url : String
  source_page_url : String
  begin_stamp_seconds : Nat
  end_stamp_seconds : Nat
  embedding : Option (List ℚ)
deriving DecidableEq, Repr

/-- `TextFeatures.save`: `if not (self.embedding is None) and
len(self.embedding) != expected_dims: raise ValueError(...)`, else
`super().save()` (the SQL write, modelled as appending the row). -/
def textFeaturesSave (settings : Settings) (store : List TextFeaturesRow)
    (row : TextFeaturesRow) : Except String (List TextFeaturesRow) :=
  let expected_dims := settings.TEXT_MODEL_CONFIG.dimensions
  match row.embedding with
  | some e =>
    if e.length ≠ expected_dims then
      .error "Embedding for TextFeatures has incorrect dimensions."
    else .ok (store ++ [row])
  | none => .ok (store ++ [row])

/-- `ImageFeatures.save`, guard against
`settings.IMAGE_MODEL_CONFIG.get("DIMENSIONS", 512)`. -/
def imageFeaturesSave (settings : Settings) (store : List ImageFeaturesRow)
    (row : ImageFeaturesRow) : Except String (List ImageFeaturesRow) :=
  let expected_dims := settings.IMAGE_MODEL_CONFIG.dimensions
  match row.embedding with
  | some e =>
    if e.length ≠ expected_dims then
      .error "Embedding for ImageFeatures has incorrect dimensions."
    else .ok (store ++ [row])
  | none => .ok (store ++ [row])

/-- `AudioFeatures.save`, guard against
`settings.AUDIO_MODEL_CONFIG.get("DIMENSIONS", 512)`. -/
def audioFeaturesSave (settings : Settings) (store : List AudioFeaturesRow)
    (row : AudioFeaturesRow) : Except String (List AudioFeaturesRow) :=
  let expected_dims := settings.AUDIO_MODEL_CONFIG.dimensions
  match row.embedding with
  | some e =>
    if e.length ≠ expected_dims then
      .error "Embedding for AudioFeatures has incorrect dimensions."
    else .ok (store ++ [row])
  | none => .ok (store ++ [row])

/-- **C7**: for each modality, saving a row whose embedding is present with a
length different from that modality's configured dimension raises (and so no
`.ok` store — no stored record — is produced), while a row whose embedding
has the configured length passes the guard and is written. -/
theorem claim_C7_dimension_guard (settings : Settings) :
    (∀ store row e, row.embedding = some e →
      e.length ≠ settings.TEXT_MODEL_CONFIG.dimensions →
      textFeaturesSave settings store row =
        .error "Embedding for TextFeatures has incorrect dimensions.") ∧
    (∀ store row e, row.embedding = some e →
      e.length = settings.TEXT_MODEL_CONFIG.dimensions →
      textFeaturesSave settings store row = .ok (store ++ [row])) ∧
    (∀ store row e, row.embedding = some e →
      e.length ≠ settings.IMAGE_MODEL_CONFIG.dimensions →
      imageFeaturesSave settings store row =
        .error "Embedding for ImageFeatures has incorrect dimensions.") ∧
    (∀ store row e, row.embedding = some e →
      e.length = settings.IMAGE_MODEL_CONFIG.dimensions →
      imageFeaturesSave settings store row = .ok (store ++ [row])) ∧
    (∀ store row e, row.embedding = some e →
      e.length ≠ settings.AUDIO_MODEL_CONFIG.dimensions →
      audioFeaturesSave settings store row =
        .error "Embedding for AudioFeatures has incorrect dimensions.") ∧
    (∀ store row e, row.embedding = some e →
      e.length = settings.AUDIO_MODEL_CONFIG.dimensions →
      audioFeaturesSave settings store row = .ok (store ++ [row])) := by
  refine ⟨?_, ?_, ?_, ?_, ?_, ?_⟩
  · intro store row e hemb hlen
    simp only [textFeaturesSave, hemb]
    rw [if_pos hlen]
  · intro store row e hemb hlen
    simp only [textFeaturesSave, hemb]
    rw [if_neg (fun hc => hc hlen)]
  · intro store row e hemb hlen
    simp only [imageFeaturesSave, hemb]
    rw [if_pos hlen]
  · intro store row e hemb hlen
    simp only [imageFeaturesSave, hemb]
    rw [if_neg (fun hc => hc hlen)]
  · intro store row e hemb hlen
    simp only [audioFeaturesSave, hemb]
    rw [if_pos hlen]
  · intro store row e hemb hlen
    simp only [audioFeaturesSave, hemb]
    rw [if_neg (fun hc => hc hlen)]

theorem claim_C7_dimension_guard_witness :
    textFeaturesSave ⟨⟨384⟩, ⟨512⟩, ⟨512⟩⟩ [] ⟨"p", "c", some [1]⟩ =
      .error "Embedding for TextFeatures has incorrect dimensions." ∧
    imageFeaturesSave ⟨⟨384⟩, ⟨512⟩, ⟨512⟩⟩ []
        ⟨"u", "p", "alt", some (List.replicate 512 0)⟩ =
      .ok [⟨"u", "p", "alt", some (List.replicate 512 0)⟩] ∧
    audioFeaturesSave ⟨⟨384⟩, ⟨512⟩, ⟨512⟩⟩ [] ⟨"u", "p", 0, 20, some [1]⟩ =
      .error "Embedding for AudioFeatures has incorrect dimensions." := by
  refine ⟨?_, ?_, ?_⟩
  · exact (claim_C7_dimension_guard ⟨⟨384⟩, ⟨512⟩, ⟨512⟩⟩).1 [] ⟨"p", "c", some [1]⟩
      [1] rfl (by norm_num)
  · exact (claim_C7_dimension_guard ⟨⟨384⟩, ⟨512⟩, ⟨512⟩⟩).2.2.2.1 []
      ⟨"u", "p", "alt", some (List.replicate 512 0)⟩ (List.replicate 512 0)
      rfl (by rw [List.length_replicate])
  · exact (claim_C7_dimension_guard ⟨⟨384⟩, ⟨512⟩, ⟨512⟩⟩).2.2.2.2.1 []
      ⟨"u", "p", 0, 20, some [1]⟩ [1] rfl (by norm_num)

/-! ## C8 — idempotent upsert keyed by the unique constraints

Both `update_or_create` calls of the indexer share one shape: look up by
key, update the defaults of the matching row, else insert.  `genUpsert`
captures that shape; `imageUpdateOrCreate` and `audioUpdateOrCreate` above
are definitionally instances of it. -/

def genUpsert {α : Type} (p : α → Bool) (u : α → α) (newRec : α)
    (store : List α) : List α :=
  if store.any p then store.map (fun r => if p r then u r else r)
  else store ++ [newRec]

theorem genUpsert_filter_length {α : Type} (p : α → Bool) (u : α → α)
    (newRec : α) (hu : ∀ r, p (u r) = p r) (hnew : p newRec = true)
    (store : List α) (hle : (store.filter p).length ≤ 1) :
    ((genUpsert p u newRec store).filter p).length = 1 := by
  unfold genUpsert
  by_cases hany : store.any p
  · rw [if_pos hany]
    rw [List.filter_map (fun r => if p r then u r else r) store]
    rw [List.length_map]
    have hcong : store.filter
        ((fun r => p r) ∘ (fun r => if p r then u r else r)) =
        store.filter p := by
      apply List.filter_congr
      intro r _
      simp only [Function.comp_apply]
      by_cases hp : p r
      · rw [if_pos hp, hu r]
      · rw [if_neg hp]
    rw [show (p ∘ fun r => if p r then u r else r) =
        ((fun r => p r) ∘ (fun r => if p r then u r else r)) from rfl]
    rw [hcong]
    rw [List.any_eq_true] at hany
    obtain ⟨x, hx, hpx⟩ := hany
    have hmem : x ∈ store.filter p := List.mem_filter.mpr ⟨hx, hpx⟩
    have hpos : 0 < (store.filter p).length := List.length_pos.mpr
      (List.ne_nil_of_mem hmem)
    omega
  · rw [if_neg hany]
    rw [List.filter_append store [newRec]]
    have hnil : store.filter p = [] := by
      rw [List.filter_eq_nil_iff]
      intro x hx
      rw [Bool.not_eq_true]
      rw [Bool.eq_false_iff]
      intro hpx
      exact hany (List.any_eq_true.mpr ⟨x, hx, hpx⟩)
    rw [hnil]
    simp [hnew]

theorem genUpsert_of_filter_length_pos {α : Type} (p : α → Bool) (u : α → α)
    (newRec : α) (store : List α) (h : 0 < (store.filter p).length) :
    genUpsert p u newRec store =
      store.map (fun r => if p r then u r else r) := by
  unfold genUpsert
  rw [if_pos ?hany]
  case hany =>
    have hne : store.filter p ≠ [] := by
      intro hnil
      rw [hnil] at h
      simp at h
    obtain ⟨x, hx⟩ := List.exists_mem_of_ne_nil _ hne
    have := List.mem_filter.mp hx
    exact List.any_eq_true.mpr ⟨x, this.1, this.2⟩

/-- `imageKeyCount store url`: the number of rows with `asset_url = url`
(the unique constraint `unique_image_asset_url` keeps it at most 1). -/
def imageKeyCount (store : List ImageRecord) (asset_url : String) : Nat :=
  (store.filter (fun r => r.asset_url == asset_url)).length

/-- `audioKeyCount`: rows matching the pair key of `unique_audio_chunk`. -/
def audioKeyCount (store : List AudioRecord) (asset_url : String)
    (begin_stamp : Nat) : Nat :=
  (store.filter (fun r =>
    r.asset_url == asset_url && r.begin_stamp_seconds == begin_stamp)).length

/-- **C8**: starting from a store satisfying the uniqueness invariant (at
most one row for the key), ingesting the same image asset — or the same
audio chunk — twice leaves exactly one row for that key, the second
ingestion is an update (the store does not grow), and the surviving row's
mutable fields are those of the second ingestion. -/
theorem claim_C8_idempotent_upsert :
    (∀ (store : List ImageRecord) url s1 alt1 emb1 s2 alt2 emb2,
      imageKeyCount store url ≤ 1 →
      imageKeyCount (imageUpdateOrCreate
        (imageUpdateOrCreate store url s1 alt1 emb1) url s2 alt2 emb2)
        url = 1 ∧
      (imageUpdateOrCreate (imageUpdateOrCreate store url s1 alt1 emb1)
        url s2 alt2 emb2).length =
        (imageUpdateOrCreate store url s1 alt1 emb1).length ∧
      ∀ r ∈ imageUpdateOrCreate (imageUpdateOrCreate store url s1 alt1 emb1)
          url s2 alt2 emb2,
        r.asset_url = url →
        r.source_page_url = s2 ∧ r.alt_text = alt2 ∧ r.embedding = emb2) ∧
    (∀ (store : List AudioRecord) url b s1 e1 emb1 s2 e2 emb2,
      audioKeyCount store url b ≤ 1 →
      audioKeyCount (audioUpdateOrCreate
        (audioUpdateOrCreate store url b s1 e1 emb1) url b s2 e2 emb2)
        url b = 1 ∧
      (audioUpdateOrCreate (audioUpdateOrCreate store url b s1 e1 emb1)
        url b s2 e2 emb2).length =
        (audioUpdateOrCreate store url b s1 e1 emb1).length ∧
      ∀ r ∈ audioUpdateOrCreate (audioUpdateOrCreate store url b s1 e1 emb1)
          url b s2 e2 emb2,
        r.asset_url = url → r.begin_stamp_seconds = b →
        r.source_page_url = s2 ∧ r.end_stamp_seconds = e2 ∧
          r.embedding = emb2) := by
  constructor
  · intro store url s1 alt1 emb1 s2 alt2 emb2 hle
    have hdef : ∀ s alt emb (st : List ImageRecord),
        imageUpdateOrCreate st url s alt emb =
        genUpsert (fun r : ImageRecord => r.asset_url == url)
          (fun r : ImageRecord =>
            { r with source_page_url := s, alt_text := alt,
                     embedding := emb })
          (⟨url, s, alt, emb⟩ : ImageRecord) st := fun _ _ _ _ => rfl
    have hu1 : ∀ r : ImageRecord,
        (({ r with source_page_url := s1, alt_text := alt1,
                   embedding := emb1 } : ImageRecord).asset_url == url) =
          (r.asset_url == url) := fun _ => rfl
    have hu2 : ∀ r : ImageRecord,
        (({ r with source_page_url := s2, alt_text := alt2,
                   embedding := emb2 } : ImageRecord).asset_url == url) =
          (r.asset_url == url) := fun _ => rfl
    have hnew : ((⟨url, s1, alt1, emb1⟩ : ImageRecord).asset_url == url) =
        true := beq_self_eq_true url
    have hnew2 : ((⟨url, s2, alt2, emb2⟩ : ImageRecord).asset_url == url) =
        true := beq_self_eq_true url
    have hcount1 : imageKeyCount (imageUpdateOrCreate store url s1 alt1 emb1)
        url = 1 := by
      rw [hdef]
      apply genUpsert_filter_length
      · exact hu1
      · exact hnew
      · exact hle
    have hmap : imageUpdateOrCreate (imageUpdateOrCreate store url s1 alt1
        emb1) url s2 alt2 emb2 =
        (imageUpdateOrCreate store url s1 alt1 emb1).map
          (fun r => if r.asset_url == url then
            { r with source_page_url := s2, alt_text := alt2,
                     embedding := emb2 } else r) := by
      rw [hdef s2 alt2 emb2]
      apply genUpsert_of_filter_length_pos
      show 0 < imageKeyCount (imageUpdateOrCreate store url s1 alt1 emb1) url
      omega
    refine ⟨?_, ?_, ?_⟩
    · rw [hdef s2 alt2 emb2]
      apply genUpsert_filter_length
      · exact hu2
      · exact hnew2
      · show imageKeyCount (imageUpdateOrCreate store url s1 alt1 emb1)
          url ≤ 1
        omega
    · rw [hmap, List.length_map]
    · intro r hr hurl
      rw [hmap] at hr
      obtain ⟨r', hr', hrr⟩ := List.mem_map.mp hr
      by_cases hp : (r'.asset_url == url) = true
      · rw [if_pos hp] at hrr
        subst hrr
        exact ⟨rfl, rfl, rfl⟩
      · rw [if_neg hp] at hrr
        subst hrr
        rw [beq_iff_eq] at hp
        exact absurd hurl hp
  · intro store url b s1 e1 emb1 s2 e2 emb2 hle
    have hdef : ∀ s ee emb (st : List AudioRecord),
        audioUpdateOrCreate st url b s ee emb =
        genUpsert (fun r : AudioRecord =>
            r.asset_url == url && r.begin_stamp_seconds == b)
          (fun r : AudioRecord =>
            { r with source_page_url := s, end_stamp_seconds := ee,
                     embedding := emb })
          (⟨url, s, b, ee, emb⟩ : AudioRecord) st := fun _ _ _ _ => rfl
    have hu1 : ∀ r : AudioRecord,
        (({ r with source_page_url := s1, end_stamp_seconds := e1,
                   embedding := emb1 } : AudioRecord).asset_url == url &&
          ({ r with source_page_url := s1, end_stamp_seconds := e1,
                    embedding := emb1 } : AudioRecord).begin_stamp_seconds == b) =
          (r.asset_url == url && r.begin_stamp_seconds == b) := fun _ => rfl
    have hu2 : ∀ r : AudioRecord,
        (({ r with source_page_url := s2, end_stamp_seconds := e2,
                   embedding := emb2 } : AudioRecord).asset_url == url &&
          ({ r with source_page_url := s2, end_stamp_seconds := e2,
                    embedding := emb2 } : AudioRecord).begin_stamp_seconds == b) =
          (r.asset_url == url && r.begin_stamp_seconds == b) := fun _ => rfl
    have hnew : ((⟨url, s1, b, e1, emb1⟩ : AudioRecord).asset_url == url &&
        (⟨url, s1, b, e1, emb1⟩ : AudioRecord).begin_stamp_seconds == b) =
        true := by
      simp
    have hnew2 : ((⟨url, s2, b, e2, emb2⟩ : AudioRecord).asset_url == url &&
        (⟨url, s2, b, e2, emb2⟩ : AudioRecord).begin_stamp_seconds == b) =
        true := by
      simp
    have hcount1 : audioKeyCount (audioUpdateOrCreate store url b s1 e1 emb1)
        url b = 1 := by
      rw [hdef]
      apply genUpsert_filter_length
      · exact hu1
      · exact hnew
      · exact hle
    have hmap : audioUpdateOrCreate (audioUpdateOrCreate store url b s1 e1
        emb1) url b s2 e2 emb2 =
        (audioUpdateOrCreate store url b s1 e1 emb1).map
          (fun r => if r.asset_url == url && r.begin_stamp_seconds == b then
            { r with source_page_url := s2, end_stamp_seconds := e2,
                     embedding := emb2 } else r) := by
      rw [hdef s2 e2 emb2]
      apply genUpsert_of_filter_length_pos
      show 0 < audioKeyCount (audioUpdateOrCreate store url b s1 e1 emb1)
        url b
      omega
    refine ⟨?_, ?_, ?_⟩
    · rw [hdef s2 e2 emb2]
      apply genUpsert_filter_length
      · exact hu2
      · exact hnew2
      · show audioKeyCount (audioUpdateOrCreate store url b s1 e1 emb1)
          url b ≤ 1
        omega
    · rw [hmap, List.length_map]
    · intro r hr hurl hb
      rw [hmap] at hr
      obtain ⟨r', hr', hrr⟩ := List.mem_map.mp hr
      by_cases hp : (r'.asset_url == url && r'.begin_stamp_seconds == b) =
          true
      · rw [if_pos hp] at hrr
        subst hrr
        exact ⟨rfl, rfl, rfl⟩
      · rw [if_neg hp] at hrr
        subst hrr
        rw [Bool.and_eq_true, beq_iff_eq, beq_iff_eq] at hp
        exact absurd ⟨hurl, hb⟩ hp

theorem claim_C8_idempotent_upsert_witness :
    imageKeyCount (imageUpdateOrCreate
      (imageUpdateOrCreate [] "u" "p1" "a1" [1]) "u" "p2" "a2" [2]) "u" = 1 ∧
    audioKeyCount (audioUpdateOrCreate
      (audioUpdateOrCreate [] "u" 0 "p1" 20 [1]) "u" 0 "p2" 20 [2])
      "u" 0 = 1 :=
  ⟨(claim_C8_idempotent_upsert.1 [] "u" "p1" "a1" [1] "p2" "a2" [2]
      (by decide)).1,
   (claim_C8_idempotent_upsert.2 [] "u" 0 "p1" 20 [1] "p2" 20 [2]
      (by decide)).1⟩

/-! ## C5 — retry policy of the Celery ingestion tasks (`indexer/tasks.py`) -/

/-- The retry-relevant parts of a `@shared_task` declaration. -/
structure TaskRetryPolicy where
  autoretry_on_exception : Bool
  max_retries : Nat
  countdown : Nat
deriving DecidableEq, Repr

/-- `@shared_task(bind=True, autoretry_for=(Exception,),
retry_kwargs={'max_retries': 3, 'countdown': 60})` on `index_media_asset`:
any unhandled exception triggers an automatic retry, at most 3 of them, 60
seconds apart. -/
def index_media_asset_policy : TaskRetryPolicy := ⟨true, 3, 60⟩

/-- Bare `@shared_task` on `index_text_snippet`: no `autoretry_for`, so an
unhandled exception fails the task at once (Celery's default `max_retries`
applies only to explicit `self.retry` calls, which the body never makes). -/
def index_text_snippet_policy : TaskRetryPolicy := ⟨false, 3, 0⟩

/-- Celery's execution of a task under a policy: run attempt `n`; on an
unhandled exception, when the policy autoretries and retries remain,
reschedule after `countdown` seconds and run the next attempt, else surface
the error.  `attempt n` is the outcome of the `n`-th run; the result is
`(final outcome, number of runs, total inter-attempt delay in seconds)`. -/
def runTaskGo (attempt : Nat → Except String String) (p : TaskRetryPolicy) :
    Nat → Nat → Except String String × Nat × Nat
  | 0, n => (attempt n, n + 1, 0)
  | retries_left + 1, n =>
    match attempt n with
    | .ok v => (.ok v, n + 1, 0)
    | .error e =>
      if p.autoretry_on_exception then
        let r := runTaskGo attempt p retries_left (n + 1)
        (r.1, r.2.1, p.countdown + r.2.2)
      else (.error e, n + 1, 0)

def runTask (attempt : Nat → Except String String) (p : TaskRetryPolicy) :
    Except String String × Nat × Nat :=
  runTaskGo attempt p p.max_retries 0

/-- **C5, counterexample**: under an attempt function that always raises,
the text-ingestion task runs exactly once — it is never rescheduled — while
the media task runs 4 times; the text task's declaration carries no
`autoretry_for`, contradicting the claim that every ingestion operation is
retried up to the same fixed maximum. -/
theorem claim_C5_counterexample :
    (runTask (fun _ => .error "boom") index_text_snippet_policy).2.1 = 1 ∧
    (runTask (fun _ => .error "boom") index_media_asset_policy).2.1 = 4 ∧
    index_text_snippet_policy.autoretry_on_exception = false := by
  refine ⟨rfl, rfl, rfl⟩

/-- **C5, amended**: `index_media_asset` (image and audio ingestion) is
rescheduled on any unhandled failure, up to 3 retries spaced 60 seconds
apart, surfacing the error after the 4th failed run; a transient failure
(first run raises, second succeeds) resolves after one 60-second retry.
`index_text_snippet` is not retried: its outcome is the first run's outcome,
with no reschedule, so a raising text-ingestion task fails immediately. -/
theorem claim_C5_amended_retry_policy
    (attempt : Nat → Except String String) (e : String) (v : String) :
    ((∀ n, n < 4 → attempt n = .error e) →
      runTask attempt index_media_asset_policy = (.error e, 4, 180)) ∧
    (attempt 0 = .error e → attempt 1 = .ok v →
      runTask attempt index_media_asset_policy = (.ok v, 2, 60)) ∧
    (attempt 0 = .error e →
      runTask attempt index_text_snippet_policy = (.error e, 1, 0)) ∧
    (attempt 0 = .ok v →
      runTask attempt index_text_snippet_policy = (.ok v, 1, 0)) := by
  refine ⟨?_, ?_, ?_, ?_⟩
  · intro h
    have h0 := h 0 (by omega)
    have h1 := h 1 (by omega)
    have h2 := h 2 (by omega)
    have h3 := h 3 (by omega)
    simp [runTask, runTaskGo, index_media_asset_policy, h0, h1, h2, h3]
  · intro h0 h1
    simp [runTask, runTaskGo, index_media_asset_policy, h0, h1]
  · intro h0
    simp [runTask, runTaskGo, index_text_snippet_policy, h0]
  · intro h0
    simp [runTask, runTaskGo, index_text_snippet_policy, h0]

theorem claim_C5_amended_retry_policy_witness :
    runTask (fun _ => .error "network error") index_media_asset_policy =
      (.error "network error", 4, 180) ∧
    runTask (fun _ => .error "network error") index_text_snippet_policy =
      (.error "network error", 1, 0) :=
  ⟨(claim_C5_amended_retry_policy (fun _ => .error "network error")
      "network error" "").1 (fun _ _ => rfl),
   (claim_C5_amended_retry_policy (fun _ => .error "network error")
      "network error" "").2.2.1 rfl⟩

/-! ## Crawler — `crawler/management/commands/run_crawler.py` -/

/-- A URL as the crawler's filter sees it after `urllib.parse.urlparse`:
`scheme`, `netloc` (host and port), and the rest of the reference. -/
structure Url where
  scheme : String
  netloc : String
  path : String
deriving DecidableEq, Repr

/-- `extract_links(soup, base_url)`: keep the hrefs that resolve to an
http(s) URL whose netloc equals the crawled page's.  Hrefs are modelled
already resolved to absolute URLs (`urljoin` of an absolute reference is
itself; a relative reference resolves against `base_url`, inheriting its
scheme and netloc, so it passes the filter).  The source collects into a
python `set`, which deduplicates; `dedup` models that (a set's iteration
order is unspecified and no claim depends on it). -/
def extract_links (hrefs : List Url) (base_url : Url) : List Url :=
  (hrefs.filter (fun l =>
    (l.scheme == "http" || l.scheme == "https") &&
      l.netloc == base_url.netloc)).dedup

/-- The traversal loop of `Command.handle`.  `fetch u` models
`requests.get(u)`: `none` is a `RequestException` (logged, page skipped),
`some hrefs` a page whose anchors carry the given absolute hrefs.  One
`fuel` unit is one iteration of the
`while frontier and len(visited) < page_limit` loop; the safety theorems
below hold for every fuel.  The result is `(visited, fetch log)`, the log
listing each `requests.get` call in order. -/
def crawl (fetch : Url → Option (List Url)) (page_limit : Nat) :
    Nat → List Url → List Url → List Url → List Url × List Url
  | 0, _, visited, fetched => (visited, fetched)
  | fuel + 1, frontier, visited, fetched =>
    match frontier with
    | [] => (visited, fetched)
    | current_url :: rest =>
      if visited.length < page_limit then
        if current_url ∈ visited then
          crawl fetch page_limit fuel rest visited fetched
        else
          let visited' := current_url :: visited
          let fetched' := fetched ++ [current_url]
          match fetch current_url with
          | none => crawl fetch page_limit fuel rest visited' fetched'
          | some hrefs =>
            crawl fetch page_limit fuel
              (rest ++ (extract_links hrefs current_url).filter
                (fun l => l ∉ visited'))
              visited' fetched'
      else (visited, fetched)

theorem crawl_invariant (fetch : Url → Option (List Url)) (N : Nat) :
    ∀ fuel frontier visited fetched,
      visited = fetched.reverse → fetched.Nodup → fetched.length ≤ N →
      ((crawl fetch N fuel frontier visited fetched).2.Nodup ∧
       (crawl fetch N fuel frontier visited fetched).2.length ≤ N ∧
       (crawl fetch N fuel frontier visited fetched).1 =
         (crawl fetch N fuel frontier visited fetched).2.reverse) := by
  intro fuel
  induction fuel with
  | zero =>
    intro frontier visited fetched h1 h2 h3
    exact ⟨h2, h3, h1⟩
  | succ fuel ih =>
    intro frontier visited fetched h1 h2 h3
    match frontier with
    | [] => exact ⟨h2, h3, h1⟩
    | current_url :: rest =>
      have hstep : crawl fetch N (fuel + 1) (current_url :: rest) visited
          fetched =
          (if visited.length < N then
            if current_url ∈ visited then
              crawl fetch N fuel rest visited fetched
            else
              let visited' := current_url :: visited
              let fetched' := fetched ++ [current_url]
              match fetch current_url with
              | none => crawl fetch N fuel rest visited' fetched'
              | some hrefs =>
                crawl fetch N fuel
                  (rest ++ (extract_links hrefs current_url).filter
                    (fun l => l ∉ visited'))
                  visited' fetched'
          else (visited, fetched)) := rfl
      rw [hstep]
      by_cases hbudget : visited.length < N
      · rw [if_pos hbudget]
        by_cases hmem : current_url ∈ visited
        · rw [if_pos hmem]
          exact ih rest visited fetched h1 h2 h3
        · rw [if_neg hmem]
          have hnotf : current_url ∉ fetched := by
            intro hc
            exact hmem (by rw [h1, List.mem_reverse]; exact hc)
          have h1' : current_url :: visited =
              (fetched ++ [current_url]).reverse := by
            rw [List.reverse_append]
            simp [h1]
          have h2' : (fetched ++ [current_url]).Nodup := by
            have hperm : List.Perm (current_url :: fetched)
                (fetched ++ [current_url]) :=
              (List.perm_append_singleton current_url fetched).symm
            exact hperm.nodup_iff.mp (List.nodup_cons.mpr ⟨hnotf, h2⟩)
          have h3' : (fetched ++ [current_url]).length ≤ N := by
            rw [List.length_append]
            have hlen : visited.length = fetched.length := by
              rw [h1, List.length_reverse]
            simp
            omega
          cases hfetch : fetch current_url with
          | none => exact ih rest _ _ h1' h2' h3'
          | some hrefs => exact ih _ _ _ h1' h2' h3'
      · rw [if_neg hbudget]
        exact ⟨h2, h3, h1⟩

/-- **C3**: for every link graph (`fetch`), page limit `N`, seed, and number
of loop iterations, the crawler issues at most `N` fetches, never fetches
the same URL twice (the fetch log has no duplicates), and a dequeued URL
already in the visited set is skipped — the loop continues with the
remaining frontier and `visited`/fetch log unchanged, consuming no budget. -/
theorem claim_C3_crawl_budget (fetch : Url → Option (List Url)) (N : Nat)
    (seed : Url) (fuel : Nat) :
    (crawl fetch N fuel [seed] [] []).2.Nodup ∧
    (crawl fetch N fuel [seed] [] []).2.length ≤ N ∧
    (∀ fuel2 rest visited fetched current_url,
      current_url ∈ visited → visited.length < N →
      crawl fetch N (fuel2 + 1) (current_url :: rest) visited fetched =
        crawl fetch N fuel2 rest visited fetched) := by
  refine ⟨(crawl_invariant fetch N fuel [seed] [] [] rfl List.nodup_nil
      (by simp)).1,
    (crawl_invariant fetch N fuel [seed] [] [] rfl List.nodup_nil
      (by simp)).2.1, ?_⟩
  intro fuel2 rest visited fetched current_url hmem hlt
  show (if visited.length < N then _ else (visited, fetched)) = _
  rw [if_pos hlt, if_pos hmem]

/-- A cyclic two-page site: the seed links to an https page on the same
host, which links back to the seed. -/
def seedHttp : Url := ⟨"http", "example.com", "/"⟩

def linkHttps : Url := ⟨"https", "example.com", "/secure"⟩

def fetchEx : Url → Option (List Url) := fun u =>
  if u = seedHttp then some [linkHttps]
  else if u = linkHttps then some [seedHttp] else none

theorem claim_C3_crawl_budget_witness :
    crawl fetchEx 2 5 [seedHttp, seedHttp] [seedHttp] [seedHttp] =
      crawl fetchEx 2 4 [seedHttp] [seedHttp] [seedHttp] :=
  (claim_C3_crawl_budget fetchEx 2 seedHttp 0).2.2 4 [seedHttp] [seedHttp]
    [seedHttp] seedHttp (by decide) (by decide)

/-- Every link `extract_links` lets through is http(s) and agrees with the
crawled page on netloc. -/
theorem extract_links_mem (hrefs : List Url) (base_url : Url) :
    ∀ l ∈ extract_links hrefs base_url,
      (l.scheme = "http" ∨ l.scheme = "https") ∧
        l.netloc = base_url.netloc := by
  intro l hl
  unfold extract_links at hl
  rw [List.mem_dedup, List.mem_filter] at hl
  obtain ⟨-, hcond⟩ := hl
  rw [Bool.and_eq_true, Bool.or_eq_true, beq_iff_eq, beq_iff_eq,
    beq_iff_eq] at hcond
  exact ⟨hcond.1, hcond.2⟩

/-- Netloc is preserved along the traversal: when every frontier URL has
netloc `nl`, so does every URL the crawler ever fetches. -/
theorem crawl_netloc_invariant (fetch : Url → Option (List Url)) (N : Nat)
    (nl : String) :
    ∀ fuel frontier visited fetched,
      (∀ u ∈ frontier, u.netloc = nl) → (∀ u ∈ fetched, u.netloc = nl) →
      ∀ u ∈ (crawl fetch N fuel frontier visited fetched).2, u.netloc = nl := by
  intro fuel
  induction fuel with
  | zero => intro frontier visited fetched _ hf u hu; exact hf u hu
  | succ fuel ih =>
    intro frontier visited fetched hfr hf
    match frontier with
    | [] => exact hf
    | current_url :: rest =>
      have hstep : crawl fetch N (fuel + 1) (current_url :: rest) visited
          fetched =
          (if visited.length < N then
            if current_url ∈ visited then
              crawl fetch N fuel rest visited fetched
            else
              let visited' := current_url :: visited
              let fetched' := fetched ++ [current_url]
              match fetch current_url with
              | none => crawl fetch N fuel rest visited' fetched'
              | some hrefs =>
                crawl fetch N fuel
                  (rest ++ (extract_links hrefs current_url).filter
                    (fun l => l ∉ visited'))
                  visited' fetched'
          else (visited, fetched)) := rfl
      rw [hstep]
      have hcur : current_url.netloc = nl :=
        hfr current_url (List.mem_cons_self _ _)
      have hrest : ∀ u ∈ rest, u.netloc = nl := fun u hu =>
        hfr u (List.mem_cons_of_mem _ hu)
      have hf' : ∀ u ∈ fetched ++ [current_url], u.netloc = nl := by
        intro u hu
        rcases List.mem_append.mp hu with hu | hu
        · exact hf u hu
        · rw [List.mem_singleton] at hu
          rw [hu]
          exact hcur
      by_cases hbudget : visited.length < N
      · rw [if_pos hbudget]
        by_cases hmem : current_url ∈ visited
        · rw [if_pos hmem]
          exact ih rest visited fetched hrest hf
        · rw [if_neg hmem]
          cases hfetch : fetch current_url with
          | none => exact ih rest _ _ hrest hf'
          | some hrefs =>
            apply ih _ _ _ ?hfr hf'
            case hfr =>
              intro u hu
              rcases List.mem_append.mp hu with hu | hu
              · exact hrest u hu
              · have hu' := List.mem_of_mem_filter hu
                have := extract_links_mem hrefs current_url u hu'
                rw [this.2, hcur]
      · rw [if_neg hbudget]
        exact hf

/-- **C4, counterexample**: with seed `http://example.com/` whose page links
to `https://example.com/secure`, the https link is enqueued and fetched —
its netloc matches the page's, and its scheme only has to be http or https,
which is never compared with the seed's scheme.  The claim that a link whose
scheme differs from the seed's is never enqueued is false. -/
theorem claim_C4_counterexample :
    extract_links [linkHttps] seedHttp = [linkHttps] ∧
    (crawl fetchEx 2 2 [seedHttp] [] []).2 = [seedHttp, linkHttps] ∧
    linkHttps.scheme ≠ seedHttp.scheme := by
  refine ⟨by decide, by decide, by decide⟩

/-- **C4, amended**: every link enqueued onto the frontier is an absolute
http(s) URL whose netloc (host and port) equals that of the page it was
found on; consequently every URL the crawler fetches in a run from a seed
has the seed's netloc.  The scheme, however, is only required to be http or
https — it may differ from the seed's. -/
theorem claim_C4_amended_same_netloc (hrefs : List Url) (base_url : Url)
    (fetch : Url → Option (List Url)) (N fuel : Nat) (seed : Url) :
    (∀ l ∈ extract_links hrefs base_url,
      (l.scheme = "http" ∨ l.scheme = "https") ∧
        l.netloc = base_url.netloc) ∧
    (∀ u ∈ (crawl fetch N fuel [seed] [] []).2, u.netloc = seed.netloc) := by
  refine ⟨extract_links_mem hrefs base_url, ?_⟩
  apply crawl_netloc_invariant fetch N seed.netloc fuel [seed] [] []
  · intro u hu
    rw [List.mem_singleton] at hu
    rw [hu]
  · intro u hu
    simp at hu

theorem claim_C4_amended_same_netloc_witness :
    ((linkHttps.scheme = "http" ∨ linkHttps.scheme = "https") ∧
      linkHttps.netloc = seedHttp.netloc) ∧
    linkHttps.netloc = seedHttp.netloc := by
  refine ⟨(claim_C4_amended_same_netloc [linkHttps] seedHttp fetchEx 2 2
      seedHttp).1 linkHttps (by decide), ?_⟩
  exact (claim_C4_amended_same_netloc [linkHttps] seedHttp fetchEx 2 2
      seedHttp).2 linkHttps (by decide)

/-! ## C9 — retrieval ordering (`search/views.py`, `MultiModalSearchView.get`)

Each branch runs `Model.objects.order_by(L2Distance("embedding",
query_embedding))[:limit]`: sort the modality's table by the L2 distance
between stored and query embedding, then take the first `limit` rows.  The
square root in the L2 distance is strictly monotone, so its ordering
coincides with the ordering by the sum of squared coordinate differences,
which stays in ℚ. -/

/-- The retrieval layer's text rows (`TextFeatures` as read back from the
store: content plus a present embedding). -/
structure TextRecord where
  source_page_url : String
  content : String
  embedding : List ℚ
deriving DecidableEq, Repr

/-- Sum of squared coordinate differences — the `L2Distance` ordering key
(pgvector rejects operands of unequal dimension, so the key is only ever
used on same-length vectors). -/
def l2sq (x y : List ℚ) : ℚ :=
  ((x.zip y).map (fun p => (p.1 - p.2) * (p.1 - p.2))).sum

/-- `order_by(L2Distance("embedding", q))[:limit]` on a table whose rows
expose their embedding through `emb`: a stable ascending sort by distance to
`q`, then the python slice `[:limit]`. -/
def retrieveNearest {α : Type} (emb : α → List ℚ) (store : List α)
    (q : List ℚ) (limit : Nat) : List α :=
  (List.insertionSort
    (fun a b => l2sq (emb a) q ≤ l2sq (emb b) q) store).take limit

/-- The `search_type == "text"` branch of the GET handler. -/
def searchText (store : List TextRecord) (q : List ℚ) (limit : Nat) :
    List TextRecord :=
  retrieveNearest TextRecord.embedding store q limit

/-- The `search_type == "image"` branch. -/
def searchImage (store : List ImageRecord) (q : List ℚ) (limit : Nat) :
    List ImageRecord :=
  retrieveNearest ImageRecord.embedding store q limit

/-- The `search_type == "audio"` branch. -/
def searchAudio (store : List AudioRecord) (q : List ℚ) (limit : Nat) :
    List AudioRecord :=
  retrieveNearest AudioRecord.embedding store q limit

theorem retrieveNearest_spec {α : Type} (emb : α → List ℚ) (store : List α)
    (q : List ℚ) (limit : Nat) :
    (retrieveNearest emb store q limit).length = min limit store.length ∧
    List.Pairwise (fun a b => l2sq (emb a) q ≤ l2sq (emb b) q)
      (retrieveNearest emb store q limit) ∧
    ∃ rest, List.Perm store (retrieveNearest emb store q limit ++ rest) ∧
      ∀ x ∈ retrieveNearest emb store q limit, ∀ y ∈ rest,
        l2sq (emb x) q ≤ l2sq (emb y) q := by
  have hsorted : List.Sorted
      (fun a b => l2sq (emb a) q ≤ l2sq (emb b) q)
      (List.insertionSort (fun a b => l2sq (emb a) q ≤ l2sq (emb b) q)
        store) := by
    haveI : IsTotal α (fun a b => l2sq (emb a) q ≤ l2sq (emb b) q) :=
      ⟨fun _ _ => le_total _ _⟩
    haveI : IsTrans α (fun a b => l2sq (emb a) q ≤ l2sq (emb b) q) :=
      ⟨fun _ _ _ => le_trans⟩
    exact List.sorted_insertionSort _ store
  have hperm : List.Perm
      (List.insertionSort (fun a b => l2sq (emb a) q ≤ l2sq (emb b) q)
        store) store :=
    List.perm_insertionSort _ store
  have hsplit : (List.insertionSort
        (fun a b => l2sq (emb a) q ≤ l2sq (emb b) q) store).take limit ++
      (List.insertionSort
        (fun a b => l2sq (emb a) q ≤ l2sq (emb b) q) store).drop limit =
      List.insertionSort (fun a b => l2sq (emb a) q ≤ l2sq (emb b) q)
        store :=
    List.take_append_drop limit _
  have hsorted' : List.Pairwise
      (fun a b => l2sq (emb a) q ≤ l2sq (emb b) q)
      ((List.insertionSort
        (fun a b => l2sq (emb a) q ≤ l2sq (emb b) q) store).take limit ++
       (List.insertionSort
        (fun a b => l2sq (emb a) q ≤ l2sq (emb b) q) store).drop limit) := by
    rw [hsplit]
    exact hsorted
  obtain ⟨htake, hdrop, hcross⟩ := List.pairwise_append.mp hsorted'
  refine ⟨?_, htake,
    ⟨(List.insertionSort (fun a b => l2sq (emb a) q ≤ l2sq (emb b) q)
        store).drop limit, ?_, ?_⟩⟩
  · show ((List.insertionSort _ store).take limit).length = _
    rw [List.length_take, hperm.length_eq]
  · show List.Perm store
      ((List.insertionSort _ store).take limit ++
        (List.insertionSort _ store).drop limit)
    rw [hsplit]
    exact hperm.symm
  · exact fun x hx y hy => hcross x hx y hy

/-- **C9**: for each modality, retrieval returns `min limit size` stored
records (so at most `limit`), sorted by ascending distance to the query
embedding, and no returned record is farther from the query than any record
left out — the result plus the leftover rows is a permutation of the store.
With three stored text vectors at distances 1, 5 and 10 from the query and
`limit = 2`, it returns exactly the distance-1 then the distance-5 record. -/
theorem claim_C9_retrieval_ordering :
    (∀ (store : List TextRecord) q limit,
      (searchText store q limit).length = min limit store.length ∧
      List.Pairwise (fun a b => l2sq a.embedding q ≤ l2sq b.embedding q)
        (searchText store q limit) ∧
      ∃ rest, List.Perm store (searchText store q limit ++ rest) ∧
        ∀ x ∈ searchText store q limit, ∀ y ∈ rest,
          l2sq x.embedding q ≤ l2sq y.embedding q) ∧
    (∀ (store : List ImageRecord) q limit,
      (searchImage store q limit).length = min limit store.length ∧
      List.Pairwise (fun a b => l2sq a.embedding q ≤ l2sq b.embedding q)
        (searchImage store q limit) ∧
      ∃ rest, List.Perm store (searchImage store q limit ++ rest) ∧
        ∀ x ∈ searchImage store q limit, ∀ y ∈ rest,
          l2sq x.embedding q ≤ l2sq y.embedding q) ∧
    (∀ (store : List AudioRecord) q limit,
      (searchAudio store q limit).length = min limit store.length ∧
      List.Pairwise (fun a b => l2sq a.embedding q ≤ l2sq b.embedding q)
        (searchAudio store q limit) ∧
      ∃ rest, List.Perm store (searchAudio store q limit ++ rest) ∧
        ∀ x ∈ searchAudio store q limit, ∀ y ∈ rest,
          l2sq x.embedding q ≤ l2sq y.embedding q) ∧
    searchText [⟨"p10", "ten", [10]⟩, ⟨"p1", "one", [1]⟩,
        ⟨"p5", "five", [5]⟩] [0] 2 =
      [⟨"p1", "one", [1]⟩, ⟨"p5", "five", [5]⟩] := by
  refine ⟨?_, ?_, ?_, by
    norm_num [searchText, retrieveNearest, List.insertionSort,
      List.orderedInsert, l2sq]⟩
  · intro store q limit
    exact retrieveNearest_spec TextRecord.embedding store q limit
  · intro store q limit
    exact retrieveNearest_spec ImageRecord.embedding store q limit
  · intro store q limit
    exact retrieveNearest_spec AudioRecord.embedding store q limit

theorem claim_C9_retrieval_ordering_witness :
    (searchText [⟨"p10", "ten", [10]⟩, ⟨"p1", "one", [1]⟩,
        ⟨"p5", "five", [5]⟩] [0] 2).length = 2 :=
  by
    have h := (claim_C9_retrieval_ordering.1
      [⟨"p10", "ten", [10]⟩, ⟨"p1", "one", [1]⟩, ⟨"p5", "five", [5]⟩]
      [0] 2).1
    rw [h]
    decide

/-! ## C10 — `extract_text` (`run_crawler.py`)

A parsed page is a tree of elements and text nodes (BeautifulSoup's view).
`soup.body` is attribute lookup, i.e. `find("body")`: the first `body`
element of the document in document order, or `None`; when it is `None`,
`soup.body.find_all(string=True)` raises `AttributeError`.
`find_all(string=True)` yields every text node of the subtree in document
order, and `text_element.parent.name` is the tag of the element the text
node sits in. -/

inductive Node where
  | element (tag : String) (children : List Node)
  | text (s : String)

/-- python `str.strip()`: drop leading and trailing whitespace. -/
def pyStrip (s : String) : String :=
  ⟨((s.data.dropWhile Char.isWhitespace).reverse.dropWhile
      Char.isWhitespace).reverse⟩

mutual
/-- `soup.find("body")`: first `body` element in document (preorder)
order. -/
def findBody : Node → Option Node
  | .text _ => none
  | .element t cs =>
    if t == "body" then some (.element t cs) else findBodyList cs

def findBodyList : List Node → Option Node
  | [] => none
  | c :: rest =>
    match findBody c with
    | some b => some b
    | none => findBodyList rest
end

mutual
/-- The text nodes of a subtree in document order, each paired with its
parent element's tag (`text_element.parent.name`); `parentTag` is the tag of
the node's parent. -/
def textsUnder (parentTag : String) : Node → List (String × String)
  | .text s => [(parentTag, s)]
  | .element t cs => textsUnderList t cs

def textsUnderList (t : String) : List Node → List (String × String)
  | [] => []
  | c :: rest => textsUnder t c ++ textsUnderList t rest
end

def ignored_tags : List String :=
  ["style", "script", "head", "title", "meta", "[document]"]

/-- `extract_text(soup)`: iterate `soup.body.find_all(string=True)`; keep
`text_element.strip()` when the parent tag is not ignored and the stripped
text is non-empty.  Without a `body` element, `soup.body` is `None` and
the `.find_all` attribute access raises. -/
def extract_text (soup : Node) : Except String (List String) :=
  match findBody soup with
  | none =>
    .error "AttributeError: NoneType object has no attribute find_all"
  | some body =>
    .ok ((match body with
      | .element t cs => textsUnderList t cs
      | .text _ => []).filterMap (fun p : String × String =>
        if p.1 ∈ ignored_tags then none
        else
          let stripped_text := pyStrip p.2
          if stripped_text = "" then none else some stripped_text))

mutual
theorem findBody_tag : ∀ (n : Node) (b : Node), findBody n = some b →
    ∃ cs, b = .element "body" cs
  | .text _, b => by
    intro h
    simp [findBody] at h
  | .element t cs, b => by
    intro h
    unfold findBody at h
    by_cases ht : (t == "body") = true
    · rw [if_pos ht] at h
      rw [beq_iff_eq] at ht
      subst ht
      exact ⟨cs, (Option.some.injEq _ _ ▸ h).symm⟩
    · rw [if_neg ht] at h
      exact findBodyList_tag cs b h

theorem findBodyList_tag : ∀ (l : List Node) (b : Node),
    findBodyList l = some b → ∃ cs, b = .element "body" cs
  | [], b => by
    intro h
    simp [findBodyList] at h
  | c :: rest, b => by
    intro h
    unfold findBodyList at h
    cases hf : findBody c with
    | some b2 =>
      rw [hf] at h
      have hb : b2 = b := by simpa using h
      subst hb
      exact findBody_tag c b2 hf
    | none =>
      rw [hf] at h
      exact findBodyList_tag rest b h
end

/-- **C10**: `extract_text` is total exactly on documents with a `body`
element.  When the document has a body (always an element tagged `body`),
it returns the stripped non-empty text nodes under the body whose parent
tag is not in the ignored set, in document order; when the document has no
body, it raises (`AttributeError`) instead of returning an empty list, so
the traversal loop is not protected against such pages. -/
theorem claim_C10_extract_text (soup : Node) :
    (findBody soup = none →
      extract_text soup =
        .error "AttributeError: NoneType object has no attribute find_all") ∧
    (∀ b, findBody soup = some b →
      ∃ cs, b = Node.element "body" cs ∧
        extract_text soup = .ok ((textsUnderList "body" cs).filterMap
          (fun p =>
            if p.1 ∈ ignored_tags then none
            else if pyStrip p.2 = "" then none else some (pyStrip p.2)))) := by
  constructor
  · intro h
    unfold extract_text
    rw [h]
  · intro b hb
    obtain ⟨cs, rfl⟩ := findBody_tag soup b hb
    refine ⟨cs, rfl, ?_⟩
    unfold extract_text
    rw [hb]

/-- A page without a `body` element. -/
def docNoBody : Node :=
  .element "html" [.element "head" [], .element "div" [.text "hi"]]

/-- A page with a body holding meaningful text, script text, and
whitespace-only text. -/
def docWithBody : Node :=
  .element "html"
    [.element "head" [.element "title" [.text "Site"]],
     .element "body"
       [.text "  hello  ",
        .element "script" [.text "var x = 1"],
        .element "p" [.text "world"],
        .text "   "]]

theorem claim_C10_extract_text_witness :
    extract_text docNoBody =
      .error "AttributeError: NoneType object has no attribute find_all" ∧
    extract_text docWithBody = .ok ["hello", "world"] := by
  constructor
  · exact (claim_C10_extract_text docNoBody).1
      (by simp [docNoBody, findBody, findBodyList])
  · obtain ⟨cs, hcs, hok⟩ := (claim_C10_extract_text docWithBody).2
      (Node.element "body"
        [.text "  hello  ",
         .element "script" [.text "var x = 1"],
         .element "p" [.text "world"],
         .text "   "])
      (by simp [docWithBody, findBody, findBodyList])
    have hcs' : cs =
        [Node.text "  hello  ",
         .element "script" [.text "var x = 1"],
         .element "p" [.text "world"],
         .text "   "] := by
      cases hcs
      rfl
    rw [hok, hcs']
    simp [textsUnder, textsUnderList, ignored_tags]
    decide
